import Mathlib

/-!
Verification of the changelog-checker core (pkg/checker, pkg/db, pkg/github)
against its natural-language specification.  Go code is shallowly embedded:
strings are Lean `String`s manipulated through their character lists, the
SQLite tables are in-memory association lists, timestamps are `Int`
nanoseconds, and the regular expressions of checker.go are translated to
deterministic character-list parsers (each regexp there is forced: every
quantified class is delimited by a character it excludes, so no backtracking
choice exists).
-/

/-! ## Basic Go string operations -/

/-- The backtick character (written via its code point to keep the source ASCII-clean). -/
def backtickChar : Char := Char.ofNat 96

/-- `strings.HasPrefix s pre`. -/
def strStartsWith (s pre : String) : Bool := pre.data.isPrefixOf s.data

/-- Does the second list occur contiguously inside the first? -/
def charsContain : List Char → List Char → Bool
  | [], sub => sub.isEmpty
  | c :: t, sub => sub.isPrefixOf (c :: t) || charsContain t sub

/-- `strings.Contains s sub`. -/
def containsStr (s sub : String) : Bool := charsContain s.data sub.data

/-- `strings.ReplaceAll s "`" ""` from CheckSimilarity: drop every backtick. -/
def stripBackticks (s : String) : String := ⟨s.data.filter (fun c => decide (c ≠ backtickChar))⟩

/-- ASCII fragment of `strings.ToLower` (the changelog lines and PR titles the
checker handles are ASCII; Go lowers each rune independently, as done here). -/
def charLower (c : Char) : Char :=
  if 65 ≤ c.toNat ∧ c.toNat ≤ 90 then Char.ofNat (c.toNat + 32) else c

/-- `strings.ToLower`. -/
def goToLower (s : String) : String := ⟨s.data.map charLower⟩

/-- `if idx := strings.Index(s, "."); idx != -1 { s = s[:idx] }` from
CheckSimilarity: keep the text before the first period (everything if none). -/
def truncAtPeriod (s : String) : String := ⟨s.data.takeWhile (fun c => decide (c ≠ '.'))⟩

/-- `bufio.ScanLines` drops one trailing carriage return from each line. -/
def dropCRChars (l : List Char) : List Char :=
  match l.getLast? with
  | some '\r' => l.dropLast
  | _ => l

/-- Split on newline characters, accumulating the current line in reverse. -/
def splitLinesAux : List Char → List Char → List (List Char)
  | [], acc => [acc.reverse]
  | '\n' :: rest, acc => acc.reverse :: splitLinesAux rest []
  | c :: rest, acc => splitLinesAux rest (c :: acc)

/-- The lines a `bufio.Scanner` with `ScanLines` yields on this string: split
at newlines, no empty final token when the text ends with a newline, one
trailing carriage return stripped per line. -/
def goLines (s : String) : List String :=
  let parts := splitLinesAux s.data []
  let parts := if parts.getLast? = some [] then parts.dropLast else parts
  parts.map (fun l => ⟨dropCRChars l⟩)

/-- `strings.Join lines "\n"`. -/
def joinLines : List String → String
  | [] => ""
  | [x] => x
  | x :: xs => x ++ "\n" ++ joinLines xs

/-! ## types.PRStatus

`types.PRStatus` is a Go `int`; the three named constants are its ordinals. -/

/-- Go `types.PRStatus` (an `int`). -/
abbrev PRStatus := Int

/-- `types.StatusGoodMatch`. -/
def StatusGoodMatch : PRStatus := 0

/-- `types.StatusPotentialMismatch`. -/
def StatusPotentialMismatch : PRStatus := 1

/-- `types.StatusNotFound`. -/
def StatusNotFound : PRStatus := 2

/-! ## Similarity pipeline (Checker.CheckSimilarity) -/

/-- The semantic-similarity oracle (`OpenAIClient.CheckSimilarity`): called with
`(prTitle, changelogDesc)`, returns a boolean verdict or an error.  The HTTP
interaction is abstracted to the function itself. -/
abbrev OracleFun := String → String → Except String Bool

/-- The deterministic substring stage of `Checker.CheckSimilarity`
(checker.go:236-247): lower-case the backtick-stripped description, truncate it
at its first period, lower-case the title, and test containment both ways. -/
def substringMatch (changelogDesc prTitle : String) : Bool :=
  let changelogLower := truncAtPeriod (goToLower (stripBackticks changelogDesc))
  let prTitleLower := goToLower prTitle
  containsStr prTitleLower changelogLower || containsStr changelogLower prTitleLower

/-- `Checker.CheckSimilarity` (checker.go:236-263).  `oracle = none` models a
checker built without an OpenAI key (`c.openAIClient == nil`); an oracle error
is logged and falls through to `StatusPotentialMismatch`. -/
def checkSimilarity (oracle : Option OracleFun) (changelogDesc prTitle : String) : PRStatus :=
  if substringMatch changelogDesc prTitle then StatusGoodMatch
  else
    match oracle with
    | some f =>
      match f prTitle changelogDesc with
      | Except.error _ => StatusPotentialMismatch
      | Except.ok true => StatusGoodMatch
      | Except.ok false => StatusPotentialMismatch
    | none => StatusPotentialMismatch

/-! ## Cache store (pkg/db/db.go)

The two SQLite tables are embedded as association lists keyed by
`(repo_owner, repo_name, pr_number)`; `INSERT OR REPLACE` is an upsert.
Timestamps are `Int` nanoseconds, mirroring Go's `time.Duration` arithmetic:
`time.Since(t) = now - t`. -/

/-- A row of `github_pr_cache`. -/
structure TitleRow where
  title : String
  fetchedAt : Int
  deriving DecidableEq

/-- A row of `validation_cache`. -/
structure ValidationRow where
  changelogDesc : String
  status : Int
  lastValidated : Int
  deriving DecidableEq

/-- Cache key: `(repo_owner, repo_name, pr_number)`. -/
abbrev CacheKey := String × String × Nat

/-- The in-memory image of the SQLite database behind a non-nil `*db.DB`. -/
structure DBState where
  prCache : List (CacheKey × TitleRow)
  validationCache : List (CacheKey × ValidationRow)
  deriving DecidableEq

/-- `SELECT ... WHERE` on a primary key: the (unique) row with that key. -/
def tableLookup {β : Type} (t : List (CacheKey × β)) (k : CacheKey) : Option β :=
  (t.find? (fun e => decide (e.1 = k))).map (fun e => e.2)

/-- `INSERT OR REPLACE`: drop any row with the key, add the new one. -/
def tableUpsert {β : Type} (t : List (CacheKey × β)) (k : CacheKey) (v : β) :
    List (CacheKey × β) :=
  (k, v) :: t.filter (fun e => !decide (e.1 = k))

/-- `7 * 24 * time.Hour` in nanoseconds. -/
def sevenDays : Int := 7 * 24 * 3600 * 1000000000

/-- `DB.GetPRInfo` (db.go:71-93) on a non-nil handle: no row is a miss, a row
older than seven days is a miss, otherwise the stored title is a hit. -/
def dbGetPRInfo (s : DBState) (owner repo : String) (pr : Nat) (now : Int) :
    String × Bool :=
  match tableLookup s.prCache (owner, repo, pr) with
  | none => ("", false)
  | some r => if now - r.fetchedAt > sevenDays then ("", false) else (r.title, true)

/-- `DB.StorePRInfo` (db.go:96-102): unconditional upsert stamped `now`. -/
def dbStorePRInfo (s : DBState) (owner repo : String) (pr : Nat) (title : String)
    (now : Int) : DBState :=
  { s with prCache := tableUpsert s.prCache (owner, repo, pr) ⟨title, now⟩ }

/-- `DB.GetValidationResult` (db.go:106-134) on a non-nil handle: miss when no
row, when the stored description differs from the current one, or when the row
is older than seven days; otherwise the stored status is a hit. -/
def dbGetValidationResult (s : DBState) (owner repo : String) (pr : Nat)
    (changelogDesc : String) (now : Int) : Int × Bool :=
  match tableLookup s.validationCache (owner, repo, pr) with
  | none => (0, false)
  | some r =>
    if r.changelogDesc ≠ changelogDesc then (0, false)
    else if now - r.lastValidated > sevenDays then (0, false)
    else (r.status, true)

/-- `DB.StoreValidationResult` (db.go:137-143): unconditional upsert stamped `now`. -/
def dbStoreValidationResult (s : DBState) (owner repo : String) (pr : Nat)
    (changelogDesc : String) (status : Int) (now : Int) : DBState :=
  { s with validationCache :=
      tableUpsert s.validationCache (owner, repo, pr) ⟨changelogDesc, status, now⟩ }

/-! ## PR-number extraction (Checker.ExtractPRNumbers, checker.go:45-117)

The regexp `\[\\#(\d+)\]` is a forced parse: the digit run is delimited by the
closing bracket.  A match contains no `[` after its first character, so two
matches can never overlap and scanning every start position yields exactly the
regexp engine's non-overlapping leftmost matches.  The star-line counting in
the Go function is logging only and does not affect the returned list. -/

/-- Try to match `\[\\#(\d+)\]` at the head of the list; on success return the
captured digit run and the characters after the match. -/
def matchMarker : List Char → Option (List Char × List Char)
  | '[' :: '\\' :: '#' :: rest =>
    match rest.takeWhile Char.isDigit, rest.dropWhile Char.isDigit with
    | [], _ => none
    | ds, ']' :: tail => some (ds, tail)
    | _, _ => none
  | _ => none

/-- All digit runs of `\[\\#(\d+)\]` matches, in textual order (matches cannot
overlap, so per-position scanning equals `FindAllStringSubmatch`). -/
def findMarkers : List Char → List (List Char)
  | [] => []
  | c :: cs =>
    match matchMarker (c :: cs) with
    | some (ds, _) => ds :: findMarkers cs
    | none => findMarkers cs

/-- Decimal value of a digit run. -/
def natOfDigits (ds : List Char) : Nat :=
  ds.foldl (fun n c => n * 10 + (c.toNat - 48)) 0

/-- `math.MaxInt64`: `strconv.Atoi` fails (and the Go loop `continue`s) above it. -/
def int64Max : Nat := 9223372036854775807

/-- The values the Go loop feeds into its dedup-append, in match order:
every captured digit run whose `Atoi` succeeds. -/
def rawPRValues (s : String) : List Nat :=
  ((findMarkers s.data).map natOfDigits).filter (fun n => decide (n ≤ int64Max))

/-- One step of the Go dedup loop: append the number unless already collected. -/
def dedupAppend (acc : List Nat) (n : Nat) : List Nat :=
  if n ∈ acc then acc else acc ++ [n]

/-- `Checker.ExtractPRNumbers`: collect match values left to right, skipping
values already seen. -/
def extractPRNumbers (s : String) : List Nat :=
  (rawPRValues s).foldl dedupAppend []

/-- Specification-side keep-first deduplication (`seen` is the set of values
already emitted): retains the first occurrence of each value, in order. -/
def dedupFirstAux : List Nat → List Nat → List Nat
  | _, [] => []
  | seen, a :: l =>
    if a ∈ seen then dedupFirstAux seen l else a :: dedupFirstAux (a :: seen) l

/-- Keep-first deduplication of a list, per the spec's words: "duplicates
collapse to one occurrence, first-seen order preserved". -/
def dedupFirst (l : List Nat) : List Nat := dedupFirstAux [] l

/-! ## Description extraction (Checker.GetPRDescriptionFromLine, checker.go:210-233)

The three regexps are translated to parsers.  Each quantifier is forced
(`[^)]*` and `[^)]+` are delimited by `)`, `\d+` by `]`), so each regexp
matches a given start position in at most one way, and the unanchored third
regexp takes the leftmost matching start position, as `FindStringSubmatch`
does. -/

/-- Parse `\[\\#\d+\]\([^)]+\) (.+)$` at the head of the list; the returned
string is the capture `(.+)`, i.e. everything after `) `. -/
def linkThenDesc : List Char → Option String
  | '[' :: '\\' :: '#' :: rest =>
    match rest.takeWhile Char.isDigit, rest.dropWhile Char.isDigit with
    | [], _ => none
    | _, ']' :: '(' :: rest2 =>
      match rest2.takeWhile (fun c => decide (c ≠ ')')), rest2.dropWhile (fun c => decide (c ≠ ')')) with
      | [], _ => none
      | _, ')' :: ' ' :: rest3 => if rest3.isEmpty then none else some ⟨rest3⟩
      | _, _ => none
    | _, _ => none
  | _ => none

/-- First regexp `^\* \([^)]*\) \[\\#\d+\]\([^)]+\) (.+)$`:
`* (<component>) [\#N](url) <desc>`. -/
def pat1 (cs : List Char) : Option String :=
  match cs with
  | '*' :: ' ' :: '(' :: rest =>
    match rest.dropWhile (fun c => decide (c ≠ ')')) with
    | ')' :: ' ' :: rest2 => linkThenDesc rest2
    | _ => none
  | _ => none

/-- Second regexp `^\* \[\\#\d+\]\([^)]+\) (.+)$`: `* [\#N](url) <desc>`. -/
def pat2 (cs : List Char) : Option String :=
  match cs with
  | '*' :: ' ' :: rest => linkThenDesc rest
  | _ => none

/-- Third, unanchored regexp `\[\\#\d+\]\([^)]+\) (.+)$`: leftmost occurrence
of a link construct followed by trailing text. -/
def pat3 : List Char → Option String
  | [] => none
  | c :: cs =>
    match linkThenDesc (c :: cs) with
    | some d => some d
    | none => pat3 cs

/-- `fmt.Sprintf("[\\#%d]", prNumber)`: the literal marker text `[\#N]`. -/
def prRefStr (prNumber : Nat) : String := "[\\#" ++ Nat.repr prNumber ++ "]"

/-- `Checker.GetPRDescriptionFromLine` (checker.go:210-233): empty unless the
line contains the literal marker for this PR number; otherwise the capture of
the first regexp that matches, or empty when none does. -/
def getPRDescriptionFromLine (line : String) (prNumber : Nat) : String :=
  if containsStr line (prRefStr prNumber) then
    match pat1 line.data with
    | some d => d
    | none =>
      match pat2 line.data with
      | some d => d
      | none =>
        match pat3 line.data with
        | some d => d
        | none => ""
  else ""

/-! ## Section extraction (Checker.GetChangelogSection, checker.go:130-207)

The changelog file is embedded as its text content.  The empty-label
resolution (try "Unreleased", else the first `## [vX.Y.Z]` header) and the
header normalization are modeled directly; the scanner resets (`file.Seek`)
amount to re-traversals of the same line list. -/

/-- Parse `^## \[(v\d+\.\d+\.\d+)\]` and return the capture. -/
def parseSemver (cs : List Char) : Option String :=
  match cs with
  | '#' :: '#' :: ' ' :: '[' :: 'v' :: rest =>
    match rest.takeWhile Char.isDigit, rest.dropWhile Char.isDigit with
    | [], _ => none
    | d1, '.' :: rest2 =>
      match rest2.takeWhile Char.isDigit, rest2.dropWhile Char.isDigit with
      | [], _ => none
      | d2, '.' :: rest3 =>
        match rest3.takeWhile Char.isDigit, rest3.dropWhile Char.isDigit with
        | [], _ => none
        | d3, ']' :: _ => some ⟨'v' :: (d1 ++ '.' :: (d2 ++ '.' :: d3))⟩
        | _, _ => none
      | _, _ => none
    | _, _ => none
  | _ => none

/-- Capture of the first line matching `^## \[(v\d+\.\d+\.\d+)\]`. -/
def firstSemver : List String → Option String
  | [] => none
  | l :: ls =>
    match parseSemver l.data with
    | some v => some v
    | none => firstSemver ls

/-- The empty-label resolution of checker.go:142-169: an empty version tag
becomes "Unreleased" when such a header exists, else the first semantic
version found, else stays "Unreleased". -/
def resolveTag (lines : List String) (tag : String) : String :=
  if tag = "" then
    if lines.any (fun l => strStartsWith l "## [Unreleased]") then "Unreleased"
    else
      match firstSemver lines with
      | some v => v
      | none => "Unreleased"
  else tag

/-- Header normalization of checker.go:172-175: a tag that neither starts with
`v` nor is "Unreleased" gets a `v` prepended inside the brackets. -/
def headerFor (tag : String) : String :=
  if strStartsWith tag "v" = false ∧ tag ≠ "Unreleased" then "## [v" ++ tag ++ "]"
  else "## [" ++ tag ++ "]"

/-- The collection loop of checker.go:177-196.  A line with the version header
as prefix (re)enters the section and is kept; once inside, a line starting a
new `## [` section stops the loop; other lines are kept while inside. -/
def collectSection (header : String) : List String → Bool → List String → List String
  | [], _, acc => acc
  | l :: ls, inSec, acc =>
    if strStartsWith l header then collectSection header ls true (acc ++ [l])
    else if inSec ∧ strStartsWith l "## [" then acc
    else if inSec then collectSection header ls inSec (acc ++ [l])
    else collectSection header ls inSec acc

/-- `Checker.GetChangelogSection` over the file's text content: resolve the
tag, normalize the header, collect the section lines (the header line
included), and fail exactly when nothing was collected. -/
def getChangelogSection (content tag : String) : Except String String :=
  if collectSection (headerFor (resolveTag (goLines content) tag)) (goLines content) false [] = [] then
    Except.error ("no section found for " ++ resolveTag (goLines content) tag ++ " in changelog file")
  else
    Except.ok (joinLines (collectSection (headerFor (resolveTag (goLines content) tag)) (goLines content) false []))

/-- `Checker.FindPRLineInSection`'s scan over the section's lines. -/
def findPRLine (pr : Nat) : List String → String
  | [] => ""
  | l :: ls => if containsStr l (prRefStr pr) then l else findPRLine pr ls

/-- `Checker.FindPRLineInSection` (checker.go:266-278): first line of the
section containing the literal marker, or empty. -/
def findPRLineInSection (pr : Nat) (sectionText : String) : String :=
  findPRLine pr (goLines sectionText)

/-! ## Sampling policy (Checker.CheckChangelog, checker.go:377-389) -/

/-- The limit application of `Checker.CheckChangelog`: with `0 < limit <
n`, limit 3 picks first, middle (`n/2`) and last; any other positive limit
takes a prefix; otherwise the list is untouched.  (`limit` is a Go `int` and
may be negative.) -/
def applyLimit (limit : Int) (prNumbers : List Nat) : List Nat :=
  if 0 < limit ∧ limit < (prNumbers.length : Int) then
    if limit = 3 then
      [prNumbers.getD 0 0, prNumbers.getD (prNumbers.length / 2) 0,
       prNumbers.getD (prNumbers.length - 1) 0]
    else prNumbers.take limit.toNat
  else prNumbers

/-! ## PR-metadata client (pkg/github) and per-PR check (Checker.CheckPR)

The database handles are `Option DBState`: `none` is a nil `*db.DB`.  The
`db.DB` methods dereference their receiver (`d.db.QueryRow`), so calling one
through a nil handle is a nil-pointer panic; `GoResult.crash` records that
outcome.  The HTTP fetch of `Client.GetPRInfo` is abstracted to its outcome
(`fetch`): an error (transport failure, rate limiting, non-200 status, or
malformed payload) or the fetched title.  The rate-limit bookkeeping on the
response path is folded into the fetch error; the fast-fail check that runs
before any store access is kept explicit. -/

/-- Outcome of running an embedded Go computation: a value, or a runtime
panic (here always a nil-pointer dereference on the database handle). -/
inductive GoResult (α : Type) where
  | ok : α → GoResult α
  | crash : GoResult α
  deriving DecidableEq

/-- The mutable rate-limit fields of `github.Client`. -/
structure ClientState where
  rateLimited : Bool
  resetTime : Int
  deriving DecidableEq

/-- `Client.GetPRInfo` (github client, types.go related doc lines 101-168):
fast-fail while rate limited, then an *unguarded* cache probe
(`c.db.GetPRInfo` — a nil handle panics here), then fetch on miss and
write-through.  Returns the title or error together with the updated store. -/
def clientGetPRInfo (cdb : Option DBState) (st : ClientState)
    (fetch : Except String String) (owner repo : String) (pr : Nat) (now : Int) :
    GoResult (Except String String × Option DBState) :=
  if st.rateLimited = true ∧ now < st.resetTime then
    GoResult.ok (Except.error "rate limited", cdb)
  else
    match cdb with
    | none => GoResult.crash
    | some s =>
      match dbGetPRInfo s owner repo pr now with
      | (title, true) => GoResult.ok (Except.ok title, some s)
      | (_, false) =>
        match fetch with
        | Except.error e => GoResult.ok (Except.error e, some s)
        | Except.ok t => GoResult.ok (Except.ok t, some (dbStorePRInfo s owner repo pr t now))

/-- `types.PRResult`. -/
structure PRResult where
  number : Nat
  changelogDesc : String
  prTitle : String
  status : PRStatus
  error : Option String
  deriving DecidableEq

/-- The cache-miss tail of `Checker.CheckPR` (checker.go:328-350): fetch the
title through the client, compute the similarity verdict, and store it in the
validation cache when the checker's handle is present (the `c.db != nil`
guard). -/
def checkPRMiss (cdb clientDb : Option DBState) (st : ClientState)
    (oracle : Option OracleFun) (fetch : Except String String)
    (owner repo : String) (pr : Nat) (desc : String) (now : Int) :
    GoResult (PRResult × Option DBState × Option DBState) :=
  match clientGetPRInfo clientDb st fetch owner repo pr now with
  | GoResult.crash => GoResult.crash
  | GoResult.ok (Except.error e, clientDb') =>
    GoResult.ok ({ number := pr, changelogDesc := desc, prTitle := "",
                   status := StatusNotFound, error := some e }, cdb, clientDb')
  | GoResult.ok (Except.ok title, clientDb') =>
    let status := checkSimilarity oracle desc title
    let cdb' :=
      match cdb with
      | none => none
      | some s => some (dbStoreValidationResult s owner repo pr desc status now)
    GoResult.ok ({ number := pr, changelogDesc := desc, prTitle := title,
                   status := status, error := none }, cdb', clientDb')

/-- `Checker.CheckPR` (checker.go:281-351).  `cdb` is the checker's database
field, `clientDb` the github client's (the same pointer in the real wiring);
both are `none` when caching is disabled.  The validation-cache probe is
guarded by `c.db != nil`; on a hit the title is still looked up for display
and a lookup failure is attached as a non-fatal error. -/
def checkPR (cdb clientDb : Option DBState) (st : ClientState)
    (oracle : Option OracleFun) (fetch : Except String String)
    (owner repo : String) (pr : Nat) (sectionText : String) (now : Int) :
    GoResult (PRResult × Option DBState × Option DBState) :=
  let line := findPRLineInSection pr sectionText
  if line = "" then
    GoResult.ok ({ number := pr, changelogDesc := "", prTitle := "",
                   status := StatusNotFound,
                   error := some ("PR #" ++ Nat.repr pr ++ " not found in changelog section") },
                 cdb, clientDb)
  else
    let desc := getPRDescriptionFromLine line pr
    if desc = "" then
      GoResult.ok ({ number := pr, changelogDesc := "", prTitle := "",
                     status := StatusNotFound,
                     error := some ("couldn't extract description for PR #" ++ Nat.repr pr) },
                   cdb, clientDb)
    else
      match cdb with
      | some s =>
        match dbGetValidationResult s owner repo pr desc now with
        | (status, true) =>
          match clientGetPRInfo clientDb st fetch owner repo pr now with
          | GoResult.crash => GoResult.crash
          | GoResult.ok (Except.error e, clientDb') =>
            GoResult.ok ({ number := pr, changelogDesc := desc, prTitle := "",
                           status := status, error := some e }, some s, clientDb')
          | GoResult.ok (Except.ok title, clientDb') =>
            GoResult.ok ({ number := pr, changelogDesc := desc, prTitle := title,
                           status := status, error := none }, some s, clientDb')
        | (_, false) => checkPRMiss (some s) clientDb st oracle fetch owner repo pr desc now
      | none => checkPRMiss none clientDb st oracle fetch owner repo pr desc now

/-- Does a `checkPR` run end without a panic while leaving the checker's own
database handle absent (no write ever performed on it)? -/
def checkPROkNoStore (r : GoResult (PRResult × Option DBState × Option DBState)) : Bool :=
  match r with
  | GoResult.ok (_, none, _) => true
  | _ => false

/-! ## Helper lemmas -/

theorem dedupFirstAux_congr : ∀ (l s₁ s₂ : List Nat), (∀ x, x ∈ s₁ ↔ x ∈ s₂) →
    dedupFirstAux s₁ l = dedupFirstAux s₂ l
  | [], _, _, _ => rfl
  | a :: l, s₁, s₂, h => by
    by_cases ha : a ∈ s₁
    · simp only [dedupFirstAux, if_pos ha, if_pos ((h a).mp ha)]
      exact dedupFirstAux_congr l s₁ s₂ h
    · simp only [dedupFirstAux, if_neg ha, if_neg (fun c => ha ((h a).mpr c))]
      rw [dedupFirstAux_congr l (a :: s₁) (a :: s₂) (by intro x; simp [h x])]

theorem foldl_dedupAppend : ∀ (l acc : List Nat),
    l.foldl dedupAppend acc = acc ++ dedupFirstAux acc l
  | [], acc => by simp [dedupFirstAux]
  | a :: l, acc => by
    rw [List.foldl_cons]
    by_cases ha : a ∈ acc
    · rw [show dedupAppend acc a = acc from if_pos ha, foldl_dedupAppend l acc]
      simp only [dedupFirstAux, if_pos ha]
    · rw [show dedupAppend acc a = acc ++ [a] from if_neg ha,
          foldl_dedupAppend l (acc ++ [a])]
      simp only [dedupFirstAux, if_neg ha, List.append_assoc, List.singleton_append]
      rw [dedupFirstAux_congr l (acc ++ [a]) (a :: acc)
            (by intro x; simp [List.mem_append, or_comm])]

theorem mem_dedupFirstAux : ∀ (l seen : List Nat) (x : Nat),
    x ∈ dedupFirstAux seen l → x ∈ l
  | [], _, x, h => by simp [dedupFirstAux] at h
  | a :: l, seen, x, h => by
    by_cases ha : a ∈ seen
    · simp only [dedupFirstAux, if_pos ha] at h
      exact List.mem_cons_of_mem a (mem_dedupFirstAux l seen x h)
    · simp only [dedupFirstAux, if_neg ha] at h
      rcases List.mem_cons.mp h with rfl | h'
      · exact List.mem_cons_self x l
      · exact List.mem_cons_of_mem a (mem_dedupFirstAux l (a :: seen) x h')

theorem not_mem_seen_dedupFirstAux : ∀ (l seen : List Nat) (x : Nat),
    x ∈ dedupFirstAux seen l → x ∉ seen
  | [], _, x, h => by simp [dedupFirstAux] at h
  | a :: l, seen, x, h => by
    by_cases ha : a ∈ seen
    · simp only [dedupFirstAux, if_pos ha] at h
      exact not_mem_seen_dedupFirstAux l seen x h
    · simp only [dedupFirstAux, if_neg ha] at h
      rcases List.mem_cons.mp h with rfl | h'
      · exact ha
      · intro hx
        exact not_mem_seen_dedupFirstAux l (a :: seen) x h' (List.mem_cons_of_mem a hx)

theorem nodup_dedupFirstAux : ∀ (l seen : List Nat), (dedupFirstAux seen l).Nodup
  | [], _ => by simp [dedupFirstAux]
  | a :: l, seen => by
    by_cases ha : a ∈ seen
    · simp only [dedupFirstAux, if_pos ha]
      exact nodup_dedupFirstAux l seen
    · simp only [dedupFirstAux, if_neg ha]
      refine List.Nodup.cons ?_ (nodup_dedupFirstAux l (a :: seen))
      intro hmem
      exact not_mem_seen_dedupFirstAux l (a :: seen) a hmem (List.mem_cons_self a seen)

/-! ## Claim C4 -/

/-- C4: `ExtractPRNumbers` returns a duplicate-free list, equal to the
keep-first deduplication of the match values in textual order: a PR number
referenced several times appears exactly once, at its first occurrence. -/
theorem extractPRNumbers_dedup_first_seen (s : String) :
    extractPRNumbers s = dedupFirst (rawPRValues s) ∧ (extractPRNumbers s).Nodup := by
  have h : extractPRNumbers s = dedupFirstAux [] (rawPRValues s) := by
    unfold extractPRNumbers
    rw [foldl_dedupAppend]
    simp
  exact ⟨h, by rw [h]; exact nodup_dedupFirstAux _ _⟩

/-! ## Claim C9 -/

/-- C9 counterexample: the section text `[\#0]` yields the PR number `0`,
which is not positive — `ExtractPRNumbers` does not guarantee positivity. -/
theorem extractPRNumbers_zero_counterexample :
    extractPRNumbers "[\\#0]" = [0] ∧ (0 : Nat) ∈ extractPRNumbers "[\\#0]" := by
  decide

/-- C9 amended: every value returned by `ExtractPRNumbers` is a natural
number derived from some `[\#digits]` marker of the section; it is positive
whenever no marker's digit run denotes zero (the code does not filter out a
literal `[\#0]`, which yields the value 0). -/
theorem extractPRNumbers_pos_of_no_zero_marker (s : String)
    (h : ∀ ds ∈ findMarkers s.data, natOfDigits ds ≠ 0) :
    (extractPRNumbers s).all (fun n => decide (0 < n)) = true := by
  rw [List.all_eq_true]
  intro n hn
  rw [decide_eq_true_eq]
  have h1 : n ∈ rawPRValues s := by
    have h2 : n ∈ extractPRNumbers s := hn
    unfold extractPRNumbers at h2
    rw [foldl_dedupAppend] at h2
    simp only [List.nil_append] at h2
    exact mem_dedupFirstAux _ _ _ h2
  rcases List.mem_filter.mp h1 with ⟨h2, -⟩
  rcases List.mem_map.mp h2 with ⟨ds, hds, rfl⟩
  exact Nat.pos_of_ne_zero (h ds hds)

/-- C9 amended, witnessed at a concrete section whose only marker is `[\#12]`. -/
theorem extractPRNumbers_pos_witness :
    (extractPRNumbers "* [\\#12](u) fix").all (fun n => decide (0 < n)) = true :=
  extractPRNumbers_pos_of_no_zero_marker "* [\\#12](u) fix" (by decide)

/-! ## Claim C1 -/

/-- C1: for a stored verdict-cache row, `GetValidationResult` reports a hit
exactly when the stored description equals the current one AND the row is at
most seven days old (a description mismatch is a miss at any age, an old row
is a miss for any description), and a hit returns the stored status; for a
stored title-cache row, `GetPRInfo` reports a hit exactly when the row is at
most seven days old. -/
theorem cache_hit_characterization (s : DBState) (r : ValidationRow) (tr : TitleRow)
    (owner repo : String) (pr : Nat) (d : String) (now : Int)
    (hv : tableLookup s.validationCache (owner, repo, pr) = some r)
    (ht : tableLookup s.prCache (owner, repo, pr) = some tr) :
    ((dbGetValidationResult s owner repo pr d now).2 = true ↔
      (r.changelogDesc = d ∧ now - r.lastValidated ≤ sevenDays))
    ∧ (r.changelogDesc = d → now - r.lastValidated ≤ sevenDays →
        dbGetValidationResult s owner repo pr d now = (r.status, true))
    ∧ ((dbGetPRInfo s owner repo pr now).2 = true ↔ now - tr.fetchedAt ≤ sevenDays)
    ∧ (now - tr.fetchedAt ≤ sevenDays → dbGetPRInfo s owner repo pr now = (tr.title, true)) := by
  have hv' : dbGetValidationResult s owner repo pr d now =
      (if r.changelogDesc ≠ d then ((0 : Int), false)
       else if now - r.lastValidated > sevenDays then ((0 : Int), false)
       else (r.status, true)) := by
    simp only [dbGetValidationResult, hv]
  have ht' : dbGetPRInfo s owner repo pr now =
      (if now - tr.fetchedAt > sevenDays then ("", false) else (tr.title, true)) := by
    simp only [dbGetPRInfo, ht]
  refine ⟨?_, ?_, ?_, ?_⟩
  · rw [hv']
    split_ifs with h1 h2 <;> simp_all <;> omega
  · intro h1 h2
    rw [hv', if_neg (by simp [h1]), if_neg (by omega)]
  · rw [ht']
    split_ifs with h
    · simp
      omega
    · simp
      omega
  · intro h
    rw [ht', if_neg (by omega)]

/-- C1 witnessed on a database holding one fresh row in each table. -/
theorem cache_hit_witness :
    dbGetValidationResult ⟨[(("o", "r", 5), ⟨"t", 0⟩)], [(("o", "r", 5), ⟨"d", 1, 0⟩)]⟩
        "o" "r" 5 "d" 100 = (1, true)
    ∧ dbGetPRInfo ⟨[(("o", "r", 5), ⟨"t", 0⟩)], [(("o", "r", 5), ⟨"d", 1, 0⟩)]⟩
        "o" "r" 5 100 = ("t", true) := by
  have h := cache_hit_characterization
    ⟨[(("o", "r", 5), ⟨"t", 0⟩)], [(("o", "r", 5), ⟨"d", 1, 0⟩)]⟩
    ⟨"d", 1, 0⟩ ⟨"t", 0⟩ "o" "r" 5 "d" 100 (by decide) (by decide)
  exact ⟨h.2.1 rfl (by decide), h.2.2.2 (by decide)⟩

/-! ## Claim C5 -/

theorem getD_zero_eq_head : ∀ (l : List Nat) (h : l ≠ []), l.getD 0 0 = l.head h
  | a :: _, _ => rfl

theorem getD_length_sub_one_eq_getLast :
    ∀ (l : List Nat) (h : l ≠ []), l.getD (l.length - 1) 0 = l.getLast h
  | [_], _ => rfl
  | a :: b :: t, _ => by
    have ih := getD_length_sub_one_eq_getLast (b :: t) (by simp)
    have hlen : (a :: b :: t).length - 1 = (b :: t).length - 1 + 1 := by
      simp
    rw [hlen, List.getD_cons_succ, ih]
    exact (List.getLast_cons (by simp)).symm

/-- C5: with a positive limit smaller than the number of extracted PRs,
`CheckChangelog` selects first, middle (`floor(n/2)`) and last when the limit
is 3, and the first `L` in order otherwise; a non-positive limit leaves all
PRs selected. -/
theorem checkChangelog_sampling (l : List Nat) (L : Int) :
    (0 < L → L < (l.length : Int) → L = 3 →
      ∃ h : l ≠ [], applyLimit L l = [l.head h, l.getD (l.length / 2) 0, l.getLast h])
    ∧ (0 < L → L < (l.length : Int) → L ≠ 3 → applyLimit L l = l.take L.toNat)
    ∧ (L ≤ 0 → applyLimit L l = l) := by
  refine ⟨?_, ?_, ?_⟩
  · intro h1 h2 h3
    have hne : l ≠ [] := by
      intro e
      subst e
      simp at h2
      omega
    refine ⟨hne, ?_⟩
    unfold applyLimit
    rw [if_pos ⟨h1, h2⟩, if_pos h3, getD_zero_eq_head l hne,
        getD_length_sub_one_eq_getLast l hne]
  · intro h1 h2 h3
    unfold applyLimit
    rw [if_pos ⟨h1, h2⟩, if_neg h3]
  · intro h
    unfold applyLimit
    rw [if_neg]
    rintro ⟨hc, -⟩
    omega

/-- C5 witnessed on ten PR numbers with limits 3, 2 and -1: limit 3 picks
exactly the first, middle and last entries, in that order. -/
theorem checkChangelog_sampling_witness :
    applyLimit 3 [10, 11, 12, 13, 14, 15, 16, 17, 18, 19] = [10, 15, 19]
    ∧ applyLimit 2 [10, 11, 12, 13, 14, 15, 16, 17, 18, 19] = [10, 11]
    ∧ applyLimit (-1) [10, 11, 12, 13, 14, 15, 16, 17, 18, 19]
        = [10, 11, 12, 13, 14, 15, 16, 17, 18, 19] := by
  refine ⟨?_, ?_, ?_⟩
  · obtain ⟨h, e⟩ :=
      (checkChangelog_sampling [10, 11, 12, 13, 14, 15, 16, 17, 18, 19] 3).1
        (by decide) (by decide) rfl
    rw [e]
    rfl
  · exact (checkChangelog_sampling [10, 11, 12, 13, 14, 15, 16, 17, 18, 19] 2).2.1
      (by decide) (by decide) (by decide)
  · exact (checkChangelog_sampling [10, 11, 12, 13, 14, 15, 16, 17, 18, 19] (-1)).2.2
      (by decide)

/-! ## Claim C7 -/

/-- C7 counterexample: the substring stage is not commutative, because only
the description is backtick-stripped and period-truncated.  For the pair
("abc", "a.b") the substring check fails, but for ("a.b", "abc") the
description "a.b" is truncated to "a", a substring of "abc", and the stage
succeeds — the full `CheckSimilarity` verdicts differ accordingly. -/
theorem substring_stage_not_commutative :
    checkSimilarity none "abc" "a.b" = StatusPotentialMismatch
    ∧ checkSimilarity none "a.b" "abc" = StatusGoodMatch
    ∧ substringMatch "abc" "a.b" = false
    ∧ substringMatch "a.b" "abc" = true := by
  decide

/-- C7 amended: the substring stage is commutative on inputs that its
normalization leaves unchanged — strings without backticks whose lower-case
form contains no period (for those, both sides reduce to the symmetric
two-way substring test on the lower-cased strings). -/
theorem substring_stage_commutative_on_clean (a b : String)
    (ha1 : stripBackticks a = a) (ha2 : truncAtPeriod (goToLower a) = goToLower a)
    (hb1 : stripBackticks b = b) (hb2 : truncAtPeriod (goToLower b) = goToLower b) :
    substringMatch a b = substringMatch b a := by
  unfold substringMatch
  rw [ha1, ha2, hb1, hb2, Bool.or_comm]

/-- C7 amended, witnessed on backtick- and period-free strings. -/
theorem substring_stage_commutative_witness :
    substringMatch "Fix" "fix bug" = substringMatch "fix bug" "Fix" :=
  substring_stage_commutative_on_clean "Fix" "fix bug"
    (by decide) (by decide) (by decide) (by decide)

/-! ## Claim C8 -/

/-- C8: `CheckSimilarity` only ever returns `GoodMatch` or
`PotentialMismatch` — never `NotFound` — and when the substring stage fails
and the configured oracle errors, the error is non-fatal and the verdict
degrades to `PotentialMismatch`. -/
theorem checkSimilarity_never_notFound (oracle : Option OracleFun) (d t : String) :
    (checkSimilarity oracle d t = StatusGoodMatch
      ∨ checkSimilarity oracle d t = StatusPotentialMismatch)
    ∧ (∀ f e, oracle = some f → substringMatch d t = false → f t d = Except.error e →
        checkSimilarity oracle d t = StatusPotentialMismatch) := by
  constructor
  · by_cases h : substringMatch d t = true
    · left
      simp [checkSimilarity, h]
    · rcases oracle with _ | f
      · right
        simp [checkSimilarity, h]
      · rcases hf : f t d with e | b
        · right
          simp [checkSimilarity, h, hf]
        · cases b
          · right
            simp [checkSimilarity, h, hf]
          · left
            simp [checkSimilarity, h, hf]
  · intro f e ho hs hf
    subst ho
    simp [checkSimilarity, hs, hf]

/-- C8 witnessed with an always-erroring oracle on a non-matching pair. -/
theorem checkSimilarity_never_notFound_witness :
    checkSimilarity (some (fun _ _ => Except.error "boom")) "alpha" "beta"
      = StatusPotentialMismatch :=
  (checkSimilarity_never_notFound (some (fun _ _ => Except.error "boom")) "alpha" "beta").2
    (fun _ _ => Except.error "boom") "boom" rfl (by decide) rfl

/-! ## Claim C10 -/

theorem charsContain_nil (l : List Char) : charsContain l [] = true := by
  cases l <;> simp [charsContain, List.isPrefixOf]

/-- C10: when the description normalizes to the empty string (backtick
stripping, lower-casing and period truncation leave nothing), the substring
stage always succeeds — the empty string is contained in every title — so
`CheckSimilarity` returns `GoodMatch` regardless of the title and oracle. -/
theorem checkSimilarity_empty_desc_goodMatch (oracle : Option OracleFun)
    (desc title : String)
    (h : truncAtPeriod (goToLower (stripBackticks desc)) = "") :
    checkSimilarity oracle desc title = StatusGoodMatch := by
  have hs : substringMatch desc title = true := by
    unfold substringMatch
    rw [h]
    simp [containsStr, charsContain_nil]
  simp [checkSimilarity, hs]

/-- C10 witnessed on a description starting with a period. -/
theorem checkSimilarity_empty_desc_witness :
    checkSimilarity none ".x" "whatever" = StatusGoodMatch :=
  checkSimilarity_empty_desc_goodMatch none ".x" "whatever" (by decide)

/-! ## Claim C3 -/

theorem suffix_of_cons {a : Char} {l₁ l₂ : List Char} (h : l₁ <:+ l₂) :
    l₁ <:+ a :: l₂ :=
  h.trans (List.suffix_cons a l₂)

theorem linkThenDesc_suffix (cs : List Char) (d : String)
    (h : linkThenDesc cs = some d) : d.data <:+ cs := by
  unfold linkThenDesc at h
  split at h
  next rest =>
    split at h
    next => exact Option.noConfusion h
    next ds rest2 heq1a heq1b =>
      split at h
      next => exact Option.noConfusion h
      next us rest3 heq2a heq2b =>
        split at h
        next => exact Option.noConfusion h
        next =>
          simp only [Option.some.injEq] at h
          subst h
          have h2 : rest2 <:+ rest := by
            have hd := List.dropWhile_suffix (l := rest) Char.isDigit
            rw [heq1a] at hd
            exact ((List.suffix_cons '(' rest2).trans
              (List.suffix_cons ']' ('(' :: rest2))).trans hd
          have h3 : rest3 <:+ rest2 := by
            have hd := List.dropWhile_suffix (l := rest2) (fun c => decide (c ≠ ')'))
            rw [heq2a] at hd
            exact ((List.suffix_cons ' ' rest3).trans
              (List.suffix_cons ')' (' ' :: rest3))).trans hd
          exact suffix_of_cons (suffix_of_cons (suffix_of_cons (h3.trans h2)))
      next => exact Option.noConfusion h
    next => exact Option.noConfusion h
  next => exact Option.noConfusion h

theorem pat3_of_link (cs : List Char) (d : String) (h : linkThenDesc cs = some d) :
    pat3 cs = some d := by
  cases cs with
  | nil => exact Option.noConfusion h
  | cons c t =>
    simp only [pat3, h]

theorem pat3_isSome_of_suffix_link :
    ∀ (cs cs' : List Char) (d : String), cs' <:+ cs → linkThenDesc cs' = some d →
      pat3 cs ≠ none
  | [], cs', d, hsuf, hlink => by
    rw [List.suffix_nil.mp hsuf] at hlink
    exact Option.noConfusion hlink
  | c :: cs, cs', d, hsuf, hlink => by
    rcases List.suffix_cons_iff.mp hsuf with rfl | h'
    · rw [pat3_of_link _ _ hlink]
      exact Option.noConfusion
    · simp only [pat3]
      cases hl : linkThenDesc (c :: cs) with
      | some e => exact Option.noConfusion
      | none => exact pat3_isSome_of_suffix_link cs cs' d h' hlink

theorem pat1_implies_pat3 (cs : List Char) (d : String) (h : pat1 cs = some d) :
    pat3 cs ≠ none := by
  unfold pat1 at h
  split at h
  next rest =>
    split at h
    next rest2 heq =>
      have h2 : rest2 <:+ rest := by
        have hd := List.dropWhile_suffix (l := rest) (fun c => decide (c ≠ ')'))
        rw [heq] at hd
        exact ((List.suffix_cons ' ' rest2).trans
          (List.suffix_cons ')' (' ' :: rest2))).trans hd
      exact pat3_isSome_of_suffix_link _ rest2 d
        (suffix_of_cons (suffix_of_cons (suffix_of_cons h2))) h
    next => exact Option.noConfusion h
  next => exact Option.noConfusion h

theorem pat2_implies_pat3 (cs : List Char) (d : String) (h : pat2 cs = some d) :
    pat3 cs ≠ none := by
  unfold pat2 at h
  split at h
  next rest =>
    exact pat3_isSome_of_suffix_link _ rest d
      (suffix_of_cons (suffix_of_cons (List.suffix_refl rest))) h
  next => exact Option.noConfusion h

theorem linkThenDesc_suffix_of_pat1 (cs : List Char) (d : String)
    (h : pat1 cs = some d) : d.data <:+ cs := by
  unfold pat1 at h
  split at h
  next rest =>
    split at h
    next rest2 heq =>
      have h2 : rest2 <:+ rest := by
        have hd := List.dropWhile_suffix (l := rest) (fun c => decide (c ≠ ')'))
        rw [heq] at hd
        exact ((List.suffix_cons ' ' rest2).trans
          (List.suffix_cons ')' (' ' :: rest2))).trans hd
      exact suffix_of_cons (suffix_of_cons (suffix_of_cons
        ((linkThenDesc_suffix rest2 d h).trans h2)))
    next => exact Option.noConfusion h
  next => exact Option.noConfusion h

theorem linkThenDesc_suffix_of_pat2 (cs : List Char) (d : String)
    (h : pat2 cs = some d) : d.data <:+ cs := by
  unfold pat2 at h
  split at h
  next rest =>
    exact suffix_of_cons (suffix_of_cons (linkThenDesc_suffix rest d h))
  next => exact Option.noConfusion h

theorem pat3_suffix : ∀ (cs : List Char) (d : String), pat3 cs = some d →
    d.data <:+ cs
  | [], d, h => Option.noConfusion h
  | c :: t, d, h => by
    simp only [pat3] at h
    cases hl : linkThenDesc (c :: t) with
    | some e =>
      rw [hl] at h
      simp only [Option.some.injEq] at h
      subst h
      exact linkThenDesc_suffix (c :: t) e hl
    | none =>
      rw [hl] at h
      exact suffix_of_cons (pat3_suffix t d h)

/-- C3 counterexample: all three regexps match any `[\#digits](url)` link, not
specifically PR N's.  On the line `* [\#1](u) see [\#2](v) more` with N = 2,
the second regexp matches at PR 1's link and the function returns
`see [\#2](v) more` — not `more`, the free text after N's own link. -/
theorem getPRDescription_wrong_link_counterexample :
    getPRDescriptionFromLine "* [\\#1](u) see [\\#2](v) more" 2 = "see [\\#2](v) more"
    ∧ getPRDescriptionFromLine "* [\\#1](u) see [\\#2](v) more" 2 ≠ "more" := by
  decide

/-- C3 amended: `GetPRDescriptionFromLine` returns the trailing text after the
first link construct `[\#digits](url)` the tiered patterns find — any PR's
link, not necessarily N's own.  It returns the empty string when the line
lacks the literal `[\#N]` marker or contains no link construct at all, and
every non-empty result is a suffix of the line (the text after some link). -/
theorem getPRDescription_after_first_link (line : String) (N : Nat) :
    ((containsStr line (prRefStr N) = false ∨ pat3 line.data = none) →
      getPRDescriptionFromLine line N = "")
    ∧ (getPRDescriptionFromLine line N).data <:+ line.data := by
  constructor
  · rintro (h | h)
    · simp [getPRDescriptionFromLine, h]
    · have h1 : pat1 line.data = none := by
        cases hp : pat1 line.data with
        | none => rfl
        | some d => exact absurd h (pat1_implies_pat3 _ _ hp)
      have h2 : pat2 line.data = none := by
        cases hp : pat2 line.data with
        | none => rfl
        | some d => exact absurd h (pat2_implies_pat3 _ _ hp)
      unfold getPRDescriptionFromLine
      rw [h1, h2, h]
      split <;> rfl
  · unfold getPRDescriptionFromLine
    split
    · cases hp1 : pat1 line.data with
      | some d =>
        simpa using linkThenDesc_suffix_of_pat1 line.data d hp1
      | none =>
        cases hp2 : pat2 line.data with
        | some d => simpa using linkThenDesc_suffix_of_pat2 line.data d hp2
        | none =>
          cases hp3 : pat3 line.data with
          | some d => simpa using pat3_suffix line.data d hp3
          | none => simp
    · simp

/-- C3 amended, witnessed on a line with the marker but no link construct. -/
theorem getPRDescription_after_first_link_witness :
    getPRDescriptionFromLine "* hello [\\#2] x" 2 = "" :=
  (getPRDescription_after_first_link "* hello [\\#2] x" 2).1 (Or.inr (by decide))

/-! ## Claim C6 -/

theorem collectSection_extends_acc (header : String) :
    ∀ (ls : List String) (inSec : Bool) (acc : List String),
      acc <+: collectSection header ls inSec acc
  | [], _, acc => List.prefix_refl acc
  | l :: ls, inSec, acc => by
    simp only [collectSection]
    split_ifs with h1 h2 h3
    · exact (List.prefix_append acc [l]).trans
        (collectSection_extends_acc header ls true (acc ++ [l]))
    · exact List.prefix_refl acc
    · exact (List.prefix_append acc [l]).trans
        (collectSection_extends_acc header ls inSec (acc ++ [l]))
    · exact collectSection_extends_acc header ls inSec acc

theorem collectSection_no_header (header : String) (ls : List String)
    (acc : List String) (h : ∀ l ∈ ls, strStartsWith l header = false) :
    collectSection header ls false acc = acc := by
  induction ls with
  | nil => rfl
  | cons l ls ih =>
    have hl := h l (List.mem_cons_self l ls)
    simp only [collectSection, hl, Bool.false_eq_true, if_false, false_and,
      ite_false]
    exact ih (fun x hx => h x (List.mem_cons_of_mem _ hx))

theorem collectSection_ne_nil (header l : String)
    (hh : strStartsWith l header = true) :
    ∀ ls : List String, l ∈ ls → collectSection header ls false [] ≠ [] := by
  intro ls
  induction ls with
  | nil => intro h; cases h
  | cons x ls ih =>
    intro hl
    simp only [collectSection]
    by_cases hx : strStartsWith x header = true
    · rw [if_pos hx]
      intro e
      have hp := collectSection_extends_acc header ls true ([] ++ [x])
      rw [e] at hp
      simp at hp
    · rcases List.mem_cons.mp hl with rfl | h'
      · exact absurd hh hx
      · simp only [hx, Bool.false_eq_true, if_false, false_and, ite_false]
        exact ih h'

/-- C6 counterexample: a changelog consisting of a single matching header line
and nothing after it.  The header line itself is collected into the section,
so the section is non-empty even though it is empty after the header, and
`GetChangelogSection` succeeds, returning just the header — the claim's
"empty after the header must fail" direction is false. -/
theorem getChangelogSection_empty_after_header_counterexample :
    (goLines "## [v1.0.0]").any
        (fun l => strStartsWith l "## [v1.0.0]") = true
    ∧ collectSection "## [v1.0.0]" (goLines "## [v1.0.0]") false [] = ["## [v1.0.0]"]
    ∧ getChangelogSection "## [v1.0.0]" "v1.0.0" = Except.ok "## [v1.0.0]" := by
  refine ⟨by decide, by decide, ?_⟩
  rfl

/-- C6 amended: `GetChangelogSection` fails with the section-not-found error
exactly when no line of the changelog starts with the normalized version
header; a matching header with no content after it succeeds, yielding the
header line alone. -/
theorem getChangelogSection_fails_iff_no_header (content tag : String) :
    (∃ e, getChangelogSection content tag = Except.error e) ↔
      ∀ l ∈ goLines content,
        strStartsWith l (headerFor (resolveTag (goLines content) tag)) = false := by
  unfold getChangelogSection
  split_ifs with h
  · constructor
    · intro _
      by_contra hc
      push_neg at hc
      rcases hc with ⟨l, hl, hne⟩
      have hne' : strStartsWith l (headerFor (resolveTag (goLines content) tag)) = true := by
        simpa using hne
      exact collectSection_ne_nil _ _ hne' _ hl h
    · intro _
      exact ⟨_, rfl⟩
  · constructor
    · rintro ⟨e, he⟩
      exact he.elim
    · intro hall
      exact absurd (collectSection_no_header _ _ _ hall) h

/-! ## Claim C2 -/

theorem clientGetPRInfo_some_ok (s : DBState) (st : ClientState)
    (fetch : Except String String) (owner repo : String) (pr : Nat) (now : Int) :
    ∃ res db', clientGetPRInfo (some s) st fetch owner repo pr now
      = GoResult.ok (res, db') := by
  unfold clientGetPRInfo
  split_ifs with h
  · exact ⟨_, _, rfl⟩
  · cases hdb : dbGetPRInfo s owner repo pr now with
    | mk title found =>
      simp only [hdb]
      cases found
      · cases fetch with
        | error e => exact ⟨_, _, rfl⟩
        | ok t => exact ⟨_, _, rfl⟩
      · exact ⟨_, _, rfl⟩

/-- C2 counterexample: in the caching-disabled configuration (both database
handles nil), a `CheckPR` run that reaches the title lookup panics: the
metadata client's `GetPRInfo` calls `c.db.GetPRInfo` without a nil check, and
`DB.GetPRInfo` dereferences its nil receiver. -/
theorem checkPR_nil_store_crash :
    checkPR none none ⟨false, 0⟩ none (Except.ok "fix") "o" "r" 5
      "* [\\#5](u) fix" 0 = GoResult.crash := by
  rfl

theorem checkPRMiss_none_okNoStore (s : DBState) (st : ClientState)
    (oracle : Option OracleFun) (fetch : Except String String)
    (owner repo : String) (pr : Nat) (desc : String) (now : Int) :
    checkPROkNoStore
      (checkPRMiss none (some s) st oracle fetch owner repo pr desc now) = true := by
  unfold checkPRMiss
  obtain ⟨res, db', hcl⟩ := clientGetPRInfo_some_ok s st fetch owner repo pr now
  rw [hcl]
  cases res with
  | error e => rfl
  | ok t => rfl

/-- C2 amended: `CheckPR`'s own store accesses are nil-safe — with the
checker's handle absent its cache probe behaves as a miss, its store as a
no-op, and the run never panics (provided the metadata client still has a
store) — but the metadata client's `GetPRInfo` is not: whenever the
rate-limit fast-fail does not trigger, calling it with an absent store
panics on the nil dereference. -/
theorem checkPR_nil_own_store_safe (s : DBState) (st : ClientState)
    (oracle : Option OracleFun) (fetch : Except String String)
    (owner repo : String) (pr : Nat) (sectionText : String) (now : Int) :
    checkPROkNoStore
        (checkPR none (some s) st oracle fetch owner repo pr sectionText now) = true
    ∧ (st.rateLimited = false →
        clientGetPRInfo none st fetch owner repo pr now = GoResult.crash) := by
  constructor
  · unfold checkPR
    dsimp only
    split_ifs with h1 h2
    · rfl
    · rfl
    · exact checkPRMiss_none_okNoStore s st oracle fetch owner repo pr _ now
  · intro h
    unfold clientGetPRInfo
    rw [if_neg]
    rintro ⟨hc, -⟩
    rw [h] at hc
    exact Bool.noConfusion hc

/-- C2 amended, witnessed: with the checker's handle nil but the client's
present, a full `CheckPR` run succeeds without touching the absent handle,
while the client's lookup with a nil store panics. -/
theorem checkPR_nil_own_store_safe_witness :
    checkPROkNoStore
        (checkPR none (some ⟨[], []⟩) ⟨false, 0⟩ none (Except.ok "fix")
          "o" "r" 5 "* [\\#5](u) fix" 0) = true
    ∧ clientGetPRInfo none ⟨false, 0⟩ (Except.ok "fix") "o" "r" 5 0
        = GoResult.crash :=
  ⟨(checkPR_nil_own_store_safe ⟨[], []⟩ ⟨false, 0⟩ none (Except.ok "fix")
      "o" "r" 5 "* [\\#5](u) fix" 0).1,
   (checkPR_nil_own_store_safe ⟨[], []⟩ ⟨false, 0⟩ none (Except.ok "fix")
      "o" "r" 5 "* [\\#5](u) fix" 0).2 rfl⟩
